import Mathlib

/-!
The package gianebao/sms: the Nexmo gateway.

A shallow embedding of `gateway.go` and `nexmo.go`.  Go strings are byte
sequences, so a string is a list of bytes.  The standard-library functions the
package calls (`net/url`, `net/http`, `io/ioutil`, `encoding/json`) are embedded
as far as the package depends on them; what the outside world decides (whether a
URL parses, what the network answers, how bytes scan as JSON) is a parameter.
-/

namespace Sms

/-! ## Strings -/

/-- A Go `byte`. -/
abbrev Byte := Fin 256

/-- A Go `string`: an immutable sequence of bytes. -/
abbrev Str := List Byte

/-- The byte of an ASCII character literal. -/
def ch (c : Char) : Byte := Fin.ofNat c.toNat

/-- The bytes of an ASCII string literal. -/
def str (s : String) : Str := s.toList.map ch

/-- Go's `<` on strings: bytewise lexicographic order. -/
def strLt : Str → Str → Bool
  | [], [] => false
  | [], _ :: _ => true
  | _ :: _, [] => false
  | a :: as, b :: bs => if a.val < b.val then true else if b.val < a.val then false else strLt as bs

/-! ## net/url: query escaping -/

/-- The alphanumeric case of `shouldEscape` in `net/url`. -/
def isAlnum (c : Byte) : Bool :=
  (ch 'a' ≤ c && c ≤ ch 'z') || (ch 'A' ≤ c && c ≤ ch 'Z') || (ch '0' ≤ c && c ≤ ch '9')

/-- The function `shouldEscape(c, encodeQueryComponent)` of `net/url`: unreserved
characters are kept; the reserved characters and everything else are escaped in a query
component. -/
def shouldEscape (c : Byte) : Bool :=
  if isAlnum c then false
  else if c = ch '-' ∨ c = ch '_' ∨ c = ch '.' ∨ c = ch '~' then false
  else true

/-- The table `upperhex` of `net/url`. -/
def upperhex : Str := str "0123456789ABCDEF"

/-- One iteration of the second loop of `escape` in `net/url`
(mode `encodeQueryComponent`). -/
def escapeByte (c : Byte) : Str :=
  if c = ch ' ' then [ch '+']
  else if shouldEscape c then
    [ch '%', upperhex.getD (c.val >>> 4) 0, upperhex.getD (c.val &&& 15) 0]
  else [c]

/-- The function `url.QueryEscape`, that is `escape(s, encodeQueryComponent)`: the first loop
counts what must be escaped and the string is returned as it is when the count
is zero; otherwise the second loop rewrites it byte by byte. -/
def QueryEscape (s : Str) : Str :=
  if s.all (fun c => !shouldEscape c) then s else s.flatMap escapeByte

/-! ## net/url: Values -/

/-- The type `url.Values`, a `map[string][]string`: the entries of the map, one
per key. -/
abbrev Values := List (Str × List Str)

namespace Values

/-- The map index `v[key]`; a missing key gives the nil slice. -/
def get (v : Values) (key : Str) : List Str :=
  match v.find? (fun p => p.1 == key) with
  | some p => p.2
  | none => []

/-- The method `Values.Set`: `v[key] = []string{value}`, which replaces the
entry of `key`. -/
def Set (v : Values) (key value : Str) : Values :=
  (key, [value]) :: v.filter (fun p => p.1 != key)

/-- Insertion of a key into a sorted list of keys. -/
def insertKey (k : Str) : List Str → List Str
  | [] => [k]
  | x :: xs => if strLt x k then x :: insertKey k xs else k :: x :: xs

/-- The call `slices.Sort(keys)`: the keys in ascending order. -/
def sortKeys (keys : List Str) : List Str := keys.foldr insertKey []

/-- The inner loop of `Values.Encode`: the values of one key are appended to
the buffer, each preceded by `&` when the buffer is not empty. -/
def encodeKey (keyEscaped : Str) (vs : List Str) (buf : Str) : Str :=
  vs.foldl (fun buf v =>
    (if buf.length > 0 then buf ++ [ch '&'] else buf) ++ keyEscaped ++ [ch '='] ++ QueryEscape v) buf

/-- The method `Values.Encode`: the keys are sorted and the pairs written as
`key=value` joined by `&`, both sides escaped. -/
def Encode (v : Values) : Str :=
  if v.length = 0 then []
  else (sortKeys (v.map Prod.fst)).foldl (fun buf k => encodeKey (QueryEscape k) (v.get k) buf) []

end Values

/-! ## nexmo.go: the request payload -/

/-- The struct `Nexmo`: a Nexmo request payload.  The field `to` is written
`to_`, `to` being reserved. -/
structure Nexmo where
  APIKey : Str
  APISecret : Str
  From : Str
  to_ : Str
  text : Str
  callback : Str
deriving DecidableEq, Repr

/-- The method `Nexmo.getQuery`: each non-empty field is set under its key and
the values are form-encoded.  The comment above it in the source, which speaks
of `MarshalJSON` and a JSON payload, is stale: no JSON is produced. -/
def Nexmo.getQuery (n : Nexmo) : Str :=
  let u : Values := []
  let u := if [] != n.APIKey then u.Set (str "api_key") n.APIKey else u
  let u := if [] != n.APISecret then u.Set (str "api_secret") n.APISecret else u
  let u := if [] != n.From then u.Set (str "from") n.From else u
  let u := if [] != n.to_ then u.Set (str "to") n.to_ else u
  let u := if [] != n.text then u.Set (str "text") n.text else u
  let u := if [] != n.callback then u.Set (str "callback") n.callback else u
  u.Encode

/-! ## The canonical form of the query -/

/-- The six parameters of a payload with their keys, in the order of the struct
fields: APIKey is `api_key`, APISecret is `api_secret`, From is `from`, to is
`to`, text is `text`, callback is `callback`. -/
def Nexmo.fields (n : Nexmo) : List (Str × Str) :=
  [(str "api_key", n.APIKey), (str "api_secret", n.APISecret), (str "from", n.From),
   (str "to", n.to_), (str "text", n.text), (str "callback", n.callback)]

/-- The six parameters of a payload in ascending key order. -/
def Nexmo.sortedFields (n : Nexmo) : List (Str × Str) :=
  [(str "api_key", n.APIKey), (str "api_secret", n.APISecret), (str "callback", n.callback),
   (str "from", n.From), (str "text", n.text), (str "to", n.to_)]

/-- The parameters of a payload whose field is not empty, in ascending key
order. -/
def Nexmo.present (n : Nexmo) : List (Str × Str) :=
  n.sortedFields.filter (fun p => p.2 ≠ [])

/-- The characters an escaped value keeps: letters, digits, `-`, `_`, `.`, `~`. -/
def unreserved (c : Byte) : Bool :=
  (65 ≤ c.val && c.val ≤ 90) || (97 ≤ c.val && c.val ≤ 122) || (48 ≤ c.val && c.val ≤ 57)
    || c.val = 45 || c.val = 95 || c.val = 46 || c.val = 126

/-- The upper-case hexadecimal digit of a number below sixteen. -/
def hexDigit (d : Nat) : Byte :=
  if d < 10 then Fin.ofNat (48 + d) else Fin.ofNat (65 + (d - 10))

/-- The escaping of one byte as the canonical form describes it: an unreserved
character stays, a space becomes `+`, any other byte becomes `%XX`. -/
def canonicalEscapeByte (c : Byte) : Str :=
  if unreserved c then [c]
  else if c.val = 32 then [ch '+']
  else [ch '%', hexDigit (c.val / 16), hexDigit (c.val % 16)]

/-- The escaping of a value as the canonical form describes it. -/
def canonicalEscape (s : Str) : Str := s.flatMap canonicalEscapeByte

/-- The canonical form of the query: the pairs `key=escape(value)` of the
non-empty fields in ascending key order, joined by `&`. -/
def Nexmo.canonicalQuery (n : Nexmo) : Str :=
  (str "&").intercalate (n.present.map (fun p => p.1 ++ str "=" ++ canonicalEscape p.2))

/-! ## Form decoding

The receiving side of the form encoding, after `url.ParseQuery` and
`url.QueryUnescape`. -/

/-- The function `ishex` of `net/url`. -/
def ishex (c : Byte) : Bool :=
  (ch '0' ≤ c && c ≤ ch '9') || (ch 'a' ≤ c && c ≤ ch 'f') || (ch 'A' ≤ c && c ≤ ch 'F')

/-- The function `unhex` of `net/url`. -/
def unhex (c : Byte) : Nat :=
  if ch '0' ≤ c ∧ c ≤ ch '9' then c.val - 48
  else if ch 'a' ≤ c ∧ c ≤ ch 'f' then c.val - 97 + 10
  else if ch 'A' ≤ c ∧ c ≤ ch 'F' then c.val - 65 + 10
  else 0

/-- The function `url.QueryUnescape`: `%XX` becomes the byte `XX`, `+` becomes
a space; a `%` not followed by two hexadecimal digits is an error (`none`). -/
def QueryUnescape : Str → Option Str
  | [] => some []
  | c :: rest =>
    if c = ch '%' then
      match rest with
      | h :: l :: rest2 =>
        if ishex h && ishex l then
          (QueryUnescape rest2).map (fun t => Fin.ofNat (unhex h * 16 + unhex l) :: t)
        else none
      | _ => none
    else if c = ch '+' then (QueryUnescape rest).map (fun t => ch ' ' :: t)
    else (QueryUnescape rest).map (fun t => c :: t)

/-- The pieces of a string between the occurrences of a separator byte, as
`strings.Split` gives them. -/
def splitOn (sep : Byte) : Str → List Str
  | [] => [[]]
  | c :: cs =>
    if c = sep then [] :: splitOn sep cs
    else
      match splitOn sep cs with
      | [] => [[c]]
      | s :: ss => (c :: s) :: ss

/-- The function `strings.Cut` for a one-byte separator: the text before the
first separator and the text after it. -/
def cut (sep : Byte) : Str → Str × Str
  | [] => ([], [])
  | c :: cs => if c = sep then ([], cs) else ((cut sep cs).1.cons c, (cut sep cs).2)

/-- The method `Values.Add`: `v[key] = append(v[key], value)`. -/
def Values.Add (v : Values) (key value : Str) : Values :=
  if v.any (fun p => p.1 == key) then
    v.map (fun p => if p.1 == key then (p.1, p.2 ++ [value]) else p)
  else v ++ [(key, [value])]

/-- One round of the loop of `url.ParseQuery` on the piece `key` cut off at the
next `&`.  The state is the map and whether an error has been met; a piece with
a semicolon or a bad escape sets the error and adds nothing, an empty piece is
skipped. -/
def parseSegment (st : Values × Bool) (key : Str) : Values × Bool :=
  if key.contains (ch ';') then (st.1, true)
  else if key = [] then st
  else
    match QueryUnescape (cut (ch '=') key).1, QueryUnescape (cut (ch '=') key).2 with
    | some k, some v => (st.1.Add k v, st.2)
    | _, _ => (st.1, true)

/-- The function `url.ParseQuery`: the decoded map and whether an error was
met. -/
def ParseQuery (query : Str) : Values × Bool :=
  (splitOn (ch '&') query).foldl parseSegment ([], false)

/-- The keys written in an encoded query: of each non-empty piece between
`&`, the text before `=`. -/
def queryKeys (query : Str) : List Str :=
  ((splitOn (ch '&') query).filter (fun seg => seg ≠ [])).map (fun seg => (cut (ch '=') seg).1)

/-! ## nexmo.go: the response payload -/

/-- The struct `NexmoResponseMessage`: a message within the response payload. -/
structure NexmoResponseMessage where
  To : Str := []
  MessageID : Str := []
  Status : Str := []
  ErrorText : Str := []
  RemainingBalance : Str := []
  MessagePrice : Str := []
  Network : Str := []
deriving DecidableEq, Repr

/-- The struct `NexmoResponse`: a response payload in JSON. -/
structure NexmoResponse where
  MessageCount : Str := []
  Messages : List NexmoResponseMessage := []
deriving DecidableEq, Repr

/-- The constant `NexmoResponseMessageStatusOK`. -/
def NexmoResponseMessageStatusOK : Str := str "0"

/-- The fields of `NexmoResponseMessage`. -/
inductive MessageField
  | To | MessageID | Status | ErrorText | RemainingBalance | MessagePrice | Network
deriving DecidableEq, Repr

/-- The `json` tag of each field of `NexmoResponseMessage`. -/
def MessageField.tag : MessageField → Str
  | .To => str "to"
  | .MessageID => str "message-id"
  | .Status => str "status"
  | .ErrorText => str "error-text"
  | .RemainingBalance => str "remaining-balance"
  | .MessagePrice => str "message-price"
  | .Network => str "network"

/-- The fields of `NexmoResponseMessage` in the order of declaration. -/
def MessageField.all : List MessageField :=
  [.To, .MessageID, .Status, .ErrorText, .RemainingBalance, .MessagePrice, .Network]

/-- The value of a field of a message. -/
def NexmoResponseMessage.get (m : NexmoResponseMessage) : MessageField → Str
  | .To => m.To
  | .MessageID => m.MessageID
  | .Status => m.Status
  | .ErrorText => m.ErrorText
  | .RemainingBalance => m.RemainingBalance
  | .MessagePrice => m.MessagePrice
  | .Network => m.Network

/-- The message with one field assigned. -/
def NexmoResponseMessage.set (m : NexmoResponseMessage) (f : MessageField) (s : Str) :
    NexmoResponseMessage :=
  match f with
  | .To => { m with To := s }
  | .MessageID => { m with MessageID := s }
  | .Status => { m with Status := s }
  | .ErrorText => { m with ErrorText := s }
  | .RemainingBalance => { m with RemainingBalance := s }
  | .MessagePrice => { m with MessagePrice := s }
  | .Network => { m with Network := s }

/-- The fields of `NexmoResponse`. -/
inductive ResponseField
  | MessageCount | Messages
deriving DecidableEq, Repr

/-- The `json` tag of each field of `NexmoResponse`. -/
def ResponseField.tag : ResponseField → Str
  | .MessageCount => str "message-count"
  | .Messages => str "messages"

/-- The fields of `NexmoResponse` in the order of declaration. -/
def ResponseField.all : List ResponseField := [.MessageCount, .Messages]

/-! ## encoding/json: decoding into the response -/

/-- A JSON value as the scanner of `encoding/json` reads it. -/
inductive JSON
  | null
  | bool (b : Bool)
  | number (literal : Str)
  | string (s : Str)
  | array (elems : List JSON)
  | object (members : List (Str × JSON))

/-- The name of the kind of a JSON value, as `UnmarshalTypeError.Value` reports
it. -/
def JSON.kind : JSON → String
  | .null => "null"
  | .bool _ => "bool"
  | .number _ => "number"
  | .string _ => "string"
  | .array _ => "array"
  | .object _ => "object"

/-- A Go `error` value: one that the environment produced (`net/http`, the
body reader, the JSON scanner), or a `json.UnmarshalTypeError` for a JSON value
of kind `value` met where the Go type `type_` was to be filled. -/
inductive Error
  | external (msg : String)
  | unmarshalType (value : String) (type_ : String)
deriving DecidableEq, Repr

/-- The method `decodeState.saveError`: only the first error is kept. -/
def saveError (saved : Option Error) (err : Error) : Option Error :=
  match saved with
  | some e => some e
  | none => some err

/-- The field a JSON key names: the field whose tag is the key, else the first
field whose tag equals the key under the case folding `foldEq` of
`encoding/json`. -/
def findField {F : Type} (foldEq : Str → Str → Bool) (tag : F → Str) (all : List F)
    (key : Str) : Option F :=
  match all.find? (fun f => tag f == key) with
  | some f => some f
  | none => all.find? (fun f => foldEq (tag f) key)

/-- Decoding of a JSON value into a Go `string` holding `cur`: a JSON string is
stored, `null` leaves the value as it is, anything else is a type error and
leaves the value as it is. -/
def decodeString (j : JSON) (cur : Str) (saved : Option Error) : Str × Option Error :=
  match j with
  | .string s => (s, saved)
  | .null => (cur, saved)
  | other => (cur, saveError saved (.unmarshalType other.kind "string"))

/-- Decoding of a JSON value into a `NexmoResponseMessage` holding `cur`: the
members of an object are stored one after the other into the fields they name,
a member that names no field is skipped; `null` leaves the value as it is;
anything else is a type error. -/
def decodeMessage (foldEq : Str → Str → Bool) (j : JSON) (cur : NexmoResponseMessage)
    (saved : Option Error) : NexmoResponseMessage × Option Error :=
  match j with
  | .object members =>
    members.foldl (fun st kv =>
      match findField foldEq MessageField.tag MessageField.all kv.1 with
      | some f => ((st.1.set f (decodeString kv.2 (st.1.get f) st.2).1),
                   (decodeString kv.2 (st.1.get f) st.2).2)
      | none => st) (cur, saved)
  | .null => (cur, saved)
  | other => (cur, saveError saved (.unmarshalType other.kind "sms.NexmoResponseMessage"))

/-- The loop of `decodeState.array` on a slice whose backing array holds
`avail` from index 0 on: the elements of the slice, followed by the elements
beyond its length that an earlier decoding left there.  Element `i` of the JSON
array is decoded into element `i` of the backing array when there is one (the
length is set to `i + 1` without zeroing), else into a zero value (a grown
array is zero beyond the elements copied). -/
def decodeElems (foldEq : Str → Str → Bool) :
    List JSON → List NexmoResponseMessage → Option Error →
      List NexmoResponseMessage × Option Error
  | [], _, saved => ([], saved)
  | j :: js, avail, saved =>
    let r := decodeMessage foldEq j (avail.headD {}) saved
    let rs := decodeElems foldEq js avail.tail r.2
    (r.1 :: rs.1, rs.2)

/-- A `[]NexmoResponseMessage` while it is decoded into: its elements, and the
elements that its backing array holds beyond its length and that are not zero
by allocation. -/
structure MessageSlice where
  elems : List NexmoResponseMessage
  spare : List NexmoResponseMessage
deriving DecidableEq, Repr

/-- Decoding of a JSON value into a `[]NexmoResponseMessage`: a non-empty array
is decoded element by element into the backing array, and what the backing
array holds beyond the last element stays there; an empty array gives a new
empty slice and `null` the nil slice, both without backing array; anything
else is a type error and leaves the slice as it is. -/
def decodeMessages (foldEq : Str → Str → Bool) (j : JSON) (cur : MessageSlice)
    (saved : Option Error) : MessageSlice × Option Error :=
  match j with
  | .array elems =>
    if elems.isEmpty then ({ elems := [], spare := [] }, saved)
    else
      ({ elems := (decodeElems foldEq elems (cur.elems ++ cur.spare) saved).1,
         spare := (cur.elems ++ cur.spare).drop elems.length },
       (decodeElems foldEq elems (cur.elems ++ cur.spare) saved).2)
  | .null => ({ elems := [], spare := [] }, saved)
  | other => (cur, saveError saved (.unmarshalType other.kind "[]sms.NexmoResponseMessage"))

/-- The state of the decoder while it fills a `NexmoResponse`: the value so
far, what the backing array of `Messages` holds beyond its length, and the
error saved so far. -/
structure DecodeState where
  value : NexmoResponse
  spare : List NexmoResponseMessage
  saved : Option Error
deriving DecidableEq, Repr

/-- Decoding of one member of the top-level object into the response. -/
def decodeMember (foldEq : Str → Str → Bool) (st : DecodeState) (kv : Str × JSON) :
    DecodeState :=
  match findField foldEq ResponseField.tag ResponseField.all kv.1 with
  | some .MessageCount =>
    { value := { st.value with
        MessageCount := (decodeString kv.2 st.value.MessageCount st.saved).1 },
      spare := st.spare,
      saved := (decodeString kv.2 st.value.MessageCount st.saved).2 }
  | some .Messages =>
    { value := { st.value with
        Messages := (decodeMessages foldEq kv.2 ⟨st.value.Messages, st.spare⟩ st.saved).1.elems },
      spare := (decodeMessages foldEq kv.2 ⟨st.value.Messages, st.spare⟩ st.saved).1.spare,
      saved := (decodeMessages foldEq kv.2 ⟨st.value.Messages, st.spare⟩ st.saved).2 }
  | none => st

/-- Decoding of a JSON value into a `NexmoResponse` holding `cur`, with the
error `decodeState.savedError` that is returned at the end.  The slice of `cur`
is taken to have no capacity beyond its length, as the zero value has. -/
def decodeResponse (foldEq : Str → Str → Bool) (j : JSON) (cur : NexmoResponse) :
    NexmoResponse × Option Error :=
  match j with
  | .object members =>
    ((members.foldl (decodeMember foldEq) { value := cur, spare := [], saved := none }).value,
     (members.foldl (decodeMember foldEq) { value := cur, spare := [], saved := none }).saved)
  | .null => (cur, none)
  | other => (cur, some (.unmarshalType other.kind "sms.NexmoResponse"))

/-! ## net/http and the environment -/

/-- The part of an `http.Request` the package sets: method, URL, header
entries in the order they were added, and body. -/
structure Request where
  Method : Str
  URL : Str
  Header : List (Str × Str)
  Body : Str
deriving DecidableEq, Repr

/-- The method `Header.Add`. -/
def Request.addHeader (r : Request) (key value : Str) : Request :=
  { r with Header := r.Header ++ [(key, value)] }

/-- An `http.Response` as far as the package looks at it: the status code,
which it never reads, and what `ioutil.ReadAll(resp.Body)` returns. -/
structure Response where
  StatusCode : Nat
  Body : Except Error Str

/-- What the package does not decide.  `NexmoEndpoint` is the package variable
of that name; `newRequestErr method url` is the error of `http.NewRequest`, if
any (an invalid method, a URL that does not parse); `roundTrip` is
`(*http.Client).Do` acting on the state `W` of the outside world; `scan` is the
JSON scanner, which gives a value or the error of `checkValid`; `foldEq` is the
case folding under which `encoding/json` matches keys to fields. -/
structure Env (W : Type) where
  NexmoEndpoint : Str
  newRequestErr : Str → Str → Option Error
  roundTrip : Request → W → Except Error Response × W
  scan : Str → Except Error JSON
  foldEq : Str → Str → Bool

/-- The default value of the package variable `NexmoEndpoint`. -/
def defaultNexmoEndpoint : Str := str "https://rest.nexmo.com/sms/json"

/-- The function `http.NewRequest` with a `bytes.Reader` as body: an error, or
the request with the given method, URL and body and an empty header. -/
def NewRequest {W : Type} (env : Env W) (method url body : Str) : Except Error Request :=
  match env.newRequestErr method url with
  | some err => .error err
  | none => .ok { Method := method, URL := url, Header := [], Body := body }

/-- The function `json.Unmarshal` into a `*NexmoResponse`: input that does not
scan returns the error and leaves the value untouched; otherwise the value is
decoded and the first type error, if any, is returned. -/
def Unmarshal {W : Type} (env : Env W) (data : Str) (v : NexmoResponse) :
    NexmoResponse × Option Error :=
  match env.scan data with
  | .error err => (v, some err)
  | .ok j => decodeResponse env.foldEq j v

/-- What a call does to the outside, in order: a request handed to
`client.Do`, a body handed to `json.Unmarshal`, the response body closed. -/
inductive Event
  | request (req : Request)
  | unmarshal (data : Str)
  | close
deriving DecidableEq, Repr

/-- The result of a call: the two return values, the events of the call, and
the state of the outside world after it. -/
structure Outcome (W : Type) where
  resp : NexmoResponse
  err : Option Error
  events : List Event
  world : W

/-- The requests handed to `client.Do` among the events of a call, in order.
What the client sends by itself when it follows a redirect is not among them. -/
def requestsOf : List Event → List Request
  | [] => []
  | .request r :: es => r :: requestsOf es
  | _ :: es => requestsOf es

/-- The bodies handed to the JSON decoder among the events of a call. -/
def decodedOf : List Event → List Str
  | [] => []
  | .unmarshal b :: es => b :: decodedOf es
  | _ :: es => decodedOf es

/-! ## nexmo.go: the call -/

/-- The method `Nexmo.getResponse`. -/
def Nexmo.getResponse {W : Type} (env : Env W) (n : Nexmo) (w : W) : Outcome W :=
  let nResp : NexmoResponse := {}
  let b := n.getQuery
  match NewRequest env (str "POST") env.NexmoEndpoint b with
  | .error err => { resp := nResp, err := some err, events := [], world := w }
  | .ok req =>
    let req := req.addHeader (str "Content-Type") (str "application/x-www-form-urlencoded")
    match env.roundTrip req w with
    | (.error err, w1) => { resp := nResp, err := some err, events := [.request req], world := w1 }
    | (.ok resp, w1) =>
      match resp.Body with
      | .error err =>
        { resp := nResp, err := some err, events := [.request req, .close], world := w1 }
      | .ok b =>
        { resp := (Unmarshal env b nResp).1, err := (Unmarshal env b nResp).2,
          events := [.request req, .unmarshal b, .close], world := w1 }

/-- Modelled from the spec: the type `Message` is declared outside the two
source files; it is an opaque value that yields its text through `String()`. -/
structure Message where
  String : Str
deriving DecidableEq, Repr

/-- The receiver of `Nexmo.send` as it stands when `getResponse` is called: the
copy of the gateway value with `to`, `text` and `callback` assigned. -/
def Nexmo.sendCopy (n : Nexmo) (to_ : Str) (message : Message) (callback : Str) : Nexmo :=
  let n := { n with to_ := to_ }
  let n := { n with text := message.String }
  let n := { n with callback := callback }
  n

/-- The method `Nexmo.send`.  The receiver is passed by value: the assignments
are made to the copy, and the value the method was called on is left alone. -/
def Nexmo.send {W : Type} (env : Env W) (n : Nexmo) (to_ : Str) (message : Message)
    (callback : Str) (w : W) : Outcome W :=
  (n.sendCopy to_ message callback).getResponse env w

/-- The arguments of one call of `send`. -/
structure Call where
  to_ : Str
  message : Message
  callback : Str
deriving DecidableEq, Repr

/-- The variables that hold gateway values, those of a caller and those of the
methods called: a variable is an index into the list. -/
abbrev Store := List Nexmo

/-- The value of a variable. -/
def Store.read (s : Store) (a : Nat) : Nexmo :=
  s.getD a { APIKey := [], APISecret := [], From := [], to_ := [], text := [], callback := [] }

/-- An assignment to a variable. -/
def Store.write (s : Store) (a : Nat) (v : Nexmo) : Store := s.set a v

/-- A new variable holding `v`: the store with the variable, and the variable. -/
def Store.alloc (s : Store) (v : Nexmo) : Store × Nat := (s ++ [v], s.length)

/-- The call `g.getResponse()` on the variable `g`.  The method has a value
receiver: its `n` is a new variable holding a copy of `g`, and its body, which
assigns to no field of `n`, runs on the value of `n`. -/
def Nexmo.getResponseAt {W : Type} (env : Env W) (g : Nat) (s : Store) (w : W) :
    Outcome W × Store :=
  ((((s.alloc (s.read g)).1).read (s.alloc (s.read g)).2).getResponse env w,
   (s.alloc (s.read g)).1)

/-- The assignments `n.to = to`, `n.text = message.String()` and
`n.callback = callback` of `Nexmo.send` to the variable `n`. -/
def Nexmo.assignAt (n : Nat) (to_ : Str) (message : Message) (callback : Str) (s : Store) :
    Store :=
  let s := s.write n { s.read n with to_ := to_ }
  let s := s.write n { s.read n with text := message.String }
  let s := s.write n { s.read n with callback := callback }
  s

/-- The call `g.send(to, message, callback)` on the variable `g`.  The method
has a value receiver: its `n` is a new variable holding a copy of `g`; the
three assignments are made to `n`, and `n.getResponse()` is called. -/
def Nexmo.sendAt {W : Type} (env : Env W) (g : Nat) (to_ : Str) (message : Message)
    (callback : Str) (s : Store) (w : W) : Outcome W × Store :=
  Nexmo.getResponseAt env (s.alloc (s.read g)).2
    (Nexmo.assignAt (s.alloc (s.read g)).2 to_ message callback (s.alloc (s.read g)).1) w

/-- A sequence of calls of `send` on the variable `g`: the outcome of each
call, and the store after the last.  Each call starts from the store and the
outside world as the call before left them. -/
def Nexmo.sendAllAt {W : Type} (env : Env W) (g : Nat) :
    List Call → Store → W → List (Outcome W) × Store
  | [], s, _ => ([], s)
  | c :: cs, s, w =>
    ((Nexmo.sendAt env g c.to_ c.message c.callback s w).1 ::
       (Nexmo.sendAllAt env g cs (Nexmo.sendAt env g c.to_ c.message c.callback s w).2
         (Nexmo.sendAt env g c.to_ c.message c.callback s w).1.world).1,
     (Nexmo.sendAllAt env g cs (Nexmo.sendAt env g c.to_ c.message c.callback s w).2
       (Nexmo.sendAt env g c.to_ c.message c.callback s w).1.world).2)

/-! ## gateway.go -/

/-- The interface `Gateway`: one method `send`, which acts on a state `S` and
returns a result of type `R` (Go: `interface{}`) and an error. -/
structure Gateway (S R : Type) where
  send : Str → Message → Str → S → (R × Option Error) × S

/-- The function `Send`. -/
def Send {S R : Type} (g : Gateway S R) (to_ : Str) (message : Message) (callback : Str) :
    S → (R × Option Error) × S :=
  g.send to_ message callback

/-- A gateway that keeps, next to the state of `g`, the list of the argument
triples its `send` was called with. -/
def Gateway.recording {S R : Type} (g : Gateway S R) : Gateway (S × List Call) R where
  send to_ message callback st :=
    ((g.send to_ message callback st.1).1,
     ((g.send to_ message callback st.1).2, st.2 ++ [⟨to_, message, callback⟩]))

/-- The gateway a `Nexmo` value is: its `send`, acting on the outside world and
the list of events so far. -/
def Nexmo.gateway {W : Type} (env : Env W) (n : Nexmo) : Gateway (W × List Event) NexmoResponse where
  send to_ message callback st :=
    (((n.send env to_ message callback st.1).resp, (n.send env to_ message callback st.1).err),
     ((n.send env to_ message callback st.1).world,
      st.2 ++ (n.send env to_ message callback st.1).events))

/-! ## The parameter keys -/

/-- The six keys of the query in ascending order. -/
def paramKeys : List Str :=
  [str "api_key", str "api_secret", str "callback", str "from", str "text", str "to"]

/-! ## The request and the response as the specification describes them -/

/-- The request the specification describes for a payload: a POST to the
endpoint with the form content type and the encoded query as body. -/
def Nexmo.postRequest {W : Type} (env : Env W) (n : Nexmo) : Request :=
  { Method := str "POST", URL := env.NexmoEndpoint,
    Header := [(str "Content-Type", str "application/x-www-form-urlencoded")],
    Body := n.getQuery }

/-- The payload of a call: the credentials and sender of the gateway, and the
recipient, text and callback of the call. -/
def Nexmo.payload (g : Nexmo) (to_ : Str) (message : Message) (callback : Str) : Nexmo :=
  { APIKey := g.APIKey, APISecret := g.APISecret, From := g.From,
    to_ := to_, text := message.String, callback := callback }

/-- The string a member list gives for a key: the value of the first member of
that key when it is a JSON string, else `dflt`. -/
def memberString (members : List (Str × JSON)) (key dflt : Str) : Str :=
  match members.lookup key with
  | some (.string s) => s
  | _ => dflt

/-- Whether a JSON value is a string. -/
def JSON.isString : JSON → Bool
  | .string _ => true
  | _ => false

/-- A per-message result of the documented shape: an object whose members are
distinct, each one of the seven documented keys with a string value. -/
def isMessageObject : JSON → Bool
  | .object members =>
    decide (members.map Prod.fst).Nodup &&
      members.all (fun kv => (MessageField.all.map MessageField.tag).contains kv.1 && kv.2.isString)
  | _ => false

/-- The message a per-message result of the documented shape stands for. -/
def expectedMessage : JSON → NexmoResponseMessage
  | .object members =>
    { To := memberString members (str "to") [],
      MessageID := memberString members (str "message-id") [],
      Status := memberString members (str "status") [],
      ErrorText := memberString members (str "error-text") [],
      RemainingBalance := memberString members (str "remaining-balance") [],
      MessagePrice := memberString members (str "message-price") [],
      Network := memberString members (str "network") [] }
  | _ => {}

/-- Whether a member is one the documented response object may have:
`message-count` with a string, or `messages` with an array of per-message
results. -/
def isResponseMember (kv : Str × JSON) : Bool :=
  (kv.1 == str "message-count" && kv.2.isString) ||
  (kv.1 == str "messages" &&
    match kv.2 with
    | .array elems => elems.all isMessageObject
    | _ => false)

/-- A response body of the documented shape: an object whose members are
distinct and are documented ones. -/
def documentedShape : JSON → Bool
  | .object members => decide (members.map Prod.fst).Nodup && members.all isResponseMember
  | _ => false

/-- The response a body of the documented shape stands for. -/
def expectedResponse : JSON → NexmoResponse
  | .object members =>
    { MessageCount := memberString members (str "message-count") [],
      Messages :=
        match members.lookup (str "messages") with
        | some (.array elems) => elems.map expectedMessage
        | _ => [] }
  | _ => {}

/-- Whether a JSON value fits a string field; `nullOk` tells whether `null` is
taken for an absent value. -/
def fitsString (nullOk : Bool) : JSON → Bool
  | .string _ => true
  | .null => nullOk
  | _ => false

/-- Whether a JSON value fits a per-message result: an object in which every
member that names a field fits a string. -/
def fitsMessage (nullOk : Bool) (foldEq : Str → Str → Bool) : JSON → Bool
  | .object members =>
    members.all (fun kv =>
      match findField foldEq MessageField.tag MessageField.all kv.1 with
      | some _ => fitsString nullOk kv.2
      | none => true)
  | .null => nullOk
  | _ => false

/-- Whether a JSON value fits the field `messages`: an array of values that fit
a per-message result. -/
def fitsMessages (nullOk : Bool) (foldEq : Str → Str → Bool) : JSON → Bool
  | .array elems => elems.all (fitsMessage nullOk foldEq)
  | .null => nullOk
  | _ => false

/-- Whether a JSON value fits the response schema: an object in which the
member `message-count` fits a string and the member `messages` fits an array of
per-message results; members that name no field are free. -/
def fitsResponse (nullOk : Bool) (foldEq : Str → Str → Bool) : JSON → Bool
  | .object members =>
    members.all (fun kv =>
      match findField foldEq ResponseField.tag ResponseField.all kv.1 with
      | some .MessageCount => fitsString nullOk kv.2
      | some .Messages => fitsMessages nullOk foldEq kv.2
      | none => true)
  | .null => nullOk
  | _ => false

/-! ## Concrete environments and values -/

/-- An environment with the default endpoint in which `http.NewRequest` gives
`reqErr`, every request is answered by `answer` while the outside world counts
the requests, and the scanner is `scan`; keys are matched exactly. -/
def fixedEnv (reqErr : Option Error) (answer : Except Error Response)
    (scan : Str → Except Error JSON) : Env Nat :=
  { NexmoEndpoint := defaultNexmoEndpoint
    newRequestErr := fun _ _ => reqErr
    roundTrip := fun _ w => (answer, w + 1)
    scan := scan
    foldEq := fun a b => a == b }

/-- An environment whose endpoint has been set to `:`, which does not parse as
a URL, so that `http.NewRequest` fails on it. -/
def unparsableEnv : Env Nat :=
  { NexmoEndpoint := str ":"
    newRequestErr := fun _ url =>
      if url = str ":" then some (.external "missing protocol scheme") else none
    roundTrip := fun _ w => (.ok { StatusCode := 200, Body := .ok [] }, w + 1)
    scan := fun _ => .error (.external "unexpected end of JSON input")
    foldEq := fun a b => a == b }

/-- A response body with one message whose status is `4`. -/
def sampleBody : Str :=
  str ("\x7b\x22message-count\x22:\x221\x22,\x22messages\x22:[\x7b\x22to\x22:\x2215551234567\x22,"
    ++ "\x22status\x22:\x224\x22,\x22error-text\x22:\x22Invalid credentials\x22\x7d]\x7d")

/-- A response body whose `message-count` is a number. -/
def mistypedBody : Str := str "\x7b\x22message-count\x22:1\x7d"

/-- The JSON value that `sampleBody` is the text of. -/
def sampleValue : JSON :=
  .object [(str "message-count", .string (str "1")),
    (str "messages", .array [.object [(str "to", .string (str "15551234567")),
      (str "status", .string (str "4")),
      (str "error-text", .string (str "Invalid credentials"))]])]

/-- A scanner that knows three bodies: `null`, `sampleBody` and
`mistypedBody`; any other input is taken not to be JSON. -/
def sampleScan (data : Str) : Except Error JSON :=
  if data = str "null" then .ok .null
  else if data = sampleBody then .ok sampleValue
  else if data = mistypedBody then .ok (.object [(str "message-count", .number (str "1"))])
  else .error (.external "invalid character")

/-- A JSON object that has the member `messages` three times, with two, one
and two elements. -/
def repeatedValue : JSON :=
  .object [
    (str "messages", .array [.object [(str "to", .string (str "a")), (str "status", .string (str "1"))],
                             .object [(str "to", .string (str "b"))]]),
    (str "messages", .array [.object [(str "status", .string (str "2"))]]),
    (str "messages", .array [.object [], .object [(str "status", .string (str "3"))]])]

/-- The gateway of the end-to-end example. -/
def sampleGateway : Nexmo :=
  { APIKey := str "k1", APISecret := str "s1", From := str "MyApp", to_ := [], text := [],
    callback := [] }

/-! ## Lemmas on escaping -/

set_option maxRecDepth 100000 in
theorem escapeByte_eq_canonical : ∀ c : Byte, escapeByte c = canonicalEscapeByte c := by
  decide

set_option maxRecDepth 100000 in
theorem escapeByte_of_not_shouldEscape :
    ∀ c : Byte, (!shouldEscape c) = true → escapeByte c = [c] := by
  decide

theorem flatMap_escapeByte_of_all (s : Str) (h : s.all (fun c => !shouldEscape c) = true) :
    s.flatMap escapeByte = s := by
  induction s with
  | nil => rfl
  | cons c cs ih =>
    simp only [List.all_cons, Bool.and_eq_true] at h
    rw [List.flatMap_cons, escapeByte_of_not_shouldEscape c h.1, ih h.2]
    rfl

theorem QueryEscape_eq_flatMap (s : Str) : QueryEscape s = s.flatMap escapeByte := by
  unfold QueryEscape
  split
  · next h => exact (flatMap_escapeByte_of_all s h).symm
  · rfl

theorem QueryEscape_eq_canonical (s : Str) : QueryEscape s = canonicalEscape s := by
  rw [QueryEscape_eq_flatMap]
  unfold canonicalEscape
  congr 1
  funext c
  exact escapeByte_eq_canonical c

/-! ## The query is the canonical form -/

theorem str_amp : str "&" = [ch '&'] := rfl

theorem str_eq : str "=" = [ch '='] := rfl

theorem QueryEscape_keys :
    QueryEscape (str "api_key") = str "api_key" ∧ QueryEscape (str "api_secret") = str "api_secret" ∧
    QueryEscape (str "from") = str "from" ∧ QueryEscape (str "to") = str "to" ∧
    QueryEscape (str "text") = str "text" ∧ QueryEscape (str "callback") = str "callback" := by
  decide

set_option maxHeartbeats 8000000 in
theorem getQuery_eq_canonicalQuery (n : Nexmo) : n.getQuery = n.canonicalQuery := by
  obtain ⟨a, b, c, d, e, f⟩ := n
  obtain ⟨h1, h2, h3, h4, h5, h6⟩ := QueryEscape_keys
  cases a <;> cases b <;> cases c <;> cases d <;> cases e <;> cases f <;>
    simp +decide [Nexmo.getQuery, Nexmo.canonicalQuery, Nexmo.present, Nexmo.sortedFields,
      Values.Set, Values.Encode, Values.sortKeys, Values.insertKey, Values.encodeKey, Values.get,
      h1, h2, h3, h4, h5, h6, str_amp, str_eq, ← QueryEscape_eq_canonical, List.intercalate]

/-! ## Lemmas on joining and splitting -/

theorem intercalate_nil (sep : Str) : sep.intercalate ([] : List Str) = [] := by
  simp [List.intercalate]

theorem intercalate_singleton (sep s : Str) : sep.intercalate [s] = s := by
  simp [List.intercalate]

theorem intercalate_cons_cons (sep s t : Str) (rest : List Str) :
    sep.intercalate (s :: t :: rest) = s ++ sep ++ sep.intercalate (t :: rest) := by
  simp [List.intercalate]

theorem splitOn_ne_nil (sep : Byte) (s : Str) : splitOn sep s ≠ [] := by
  cases s with
  | nil => simp [splitOn]
  | cons c cs =>
    unfold splitOn
    split
    · simp
    · split <;> simp

theorem splitOn_of_not_mem (sep : Byte) (s : Str) (h : sep ∉ s) : splitOn sep s = [s] := by
  induction s with
  | nil => rfl
  | cons c cs ih =>
    have hc : c ≠ sep := fun e => h (by simp [e])
    have hcs : sep ∉ cs := fun e => h (by simp [e])
    simp [splitOn, hc, ih hcs]

theorem splitOn_append_sep (sep : Byte) (s t : Str) (h : sep ∉ s) :
    splitOn sep (s ++ sep :: t) = s :: splitOn sep t := by
  induction s with
  | nil => simp [splitOn]
  | cons c cs ih =>
    have hc : c ≠ sep := fun e => h (by simp [e])
    have hcs : sep ∉ cs := fun e => h (by simp [e])
    simp [splitOn, hc, ih hcs]

theorem splitOn_intercalate (sep : Byte) (segs : List Str) (hne : segs ≠ [])
    (h : ∀ s ∈ segs, sep ∉ s) : splitOn sep (List.intercalate [sep] segs) = segs := by
  induction segs with
  | nil => exact absurd rfl hne
  | cons s rest ih =>
    cases rest with
    | nil =>
      rw [intercalate_singleton]
      exact splitOn_of_not_mem sep s (h s (by simp))
    | cons t rest =>
      rw [intercalate_cons_cons, List.append_assoc, List.singleton_append,
        splitOn_append_sep sep s _ (h s (by simp)),
        ih (by simp) (fun x hx => h x (List.mem_cons_of_mem _ hx))]

theorem cut_append_sep (sep : Byte) (k v : Str) (h : sep ∉ k) :
    cut sep (k ++ sep :: v) = (k, v) := by
  induction k with
  | nil => simp [cut]
  | cons c cs ih =>
    have hc : c ≠ sep := fun e => h (by simp [e])
    have hcs : sep ∉ cs := fun e => h (by simp [e])
    simp [cut, hc, ih hcs]

/-! ## Lemmas on unescaping -/

set_option maxRecDepth 100000 in
theorem escapeByte_shape : ∀ b : Byte,
    (b = ch ' ' ∧ escapeByte b = [ch '+']) ∨
    (escapeByte b = [b] ∧ b ≠ ch '%' ∧ b ≠ ch '+') ∨
    (escapeByte b = [ch '%', upperhex.getD (b.val >>> 4) 0, upperhex.getD (b.val &&& 15) 0] ∧
      (ishex (upperhex.getD (b.val >>> 4) 0) && ishex (upperhex.getD (b.val &&& 15) 0)) = true ∧
      Fin.ofNat (unhex (upperhex.getD (b.val >>> 4) 0) * 16
        + unhex (upperhex.getD (b.val &&& 15) 0)) = b) := by
  decide

set_option maxRecDepth 100000 in
theorem escapeByte_all_no_delimiter : ∀ b : Byte,
    (escapeByte b).all (fun c => c != ch '&' && c != ch '=' && c != ch ';') = true := by
  decide

theorem escapeByte_no_delimiter (b c : Byte) (hc : c ∈ escapeByte b) :
    c ≠ ch '&' ∧ c ≠ ch '=' ∧ c ≠ ch ';' := by
  have h := List.all_eq_true.mp (escapeByte_all_no_delimiter b) c hc
  simp only [Bool.and_eq_true, bne_iff_ne, ne_eq] at h
  exact ⟨h.1.1, h.1.2, h.2⟩

theorem escapeByte_ne_nil (b : Byte) : escapeByte b ≠ [] := by
  rcases escapeByte_shape b with h | h | h
  · simp [h.2]
  · simp [h.1]
  · simp [h.1]

theorem QueryUnescape_plus (t : Str) :
    QueryUnescape (ch '+' :: t) = (QueryUnescape t).map (fun r => ch ' ' :: r) := by
  have e1 : ch '+' ≠ ch '%' := by decide
  rcases t with _ | ⟨h, _ | ⟨l, r⟩⟩ <;> simp [QueryUnescape, e1]

theorem QueryUnescape_plain (b : Byte) (t : Str) (h1 : b ≠ ch '%') (h2 : b ≠ ch '+') :
    QueryUnescape (b :: t) = (QueryUnescape t).map (fun r => b :: r) := by
  rcases t with _ | ⟨h, _ | ⟨l, r⟩⟩ <;> simp [QueryUnescape, h1, h2]

theorem QueryUnescape_percent (h l : Byte) (t : Str) (hx : (ishex h && ishex l) = true) :
    QueryUnescape (ch '%' :: h :: l :: t)
      = (QueryUnescape t).map (fun r => Fin.ofNat (unhex h * 16 + unhex l) :: r) := by
  rw [QueryUnescape]
  simp only [if_true, hx]

theorem QueryUnescape_escapeByte_append (b : Byte) (t : Str) :
    QueryUnescape (escapeByte b ++ t) = (QueryUnescape t).map (fun r => b :: r) := by
  rcases escapeByte_shape b with ⟨hb, h⟩ | ⟨h, h1, h2⟩ | ⟨h, hx, hv⟩
  · rw [h, hb]
    exact QueryUnescape_plus t
  · rw [h]
    exact QueryUnescape_plain b t h1 h2
  · rw [h]
    simp only [List.cons_append, List.nil_append]
    rw [QueryUnescape_percent _ _ t hx, hv]

theorem QueryUnescape_QueryEscape (v : Str) : QueryUnescape (QueryEscape v) = some v := by
  rw [QueryEscape_eq_flatMap]
  induction v with
  | nil => rfl
  | cons b bs ih =>
    rw [List.flatMap_cons, QueryUnescape_escapeByte_append, ih]
    rfl

theorem QueryEscape_no_delimiter (v : Str) (c : Byte) (hc : c ∈ QueryEscape v) :
    c ≠ ch '&' ∧ c ≠ ch '=' ∧ c ≠ ch ';' := by
  rw [QueryEscape_eq_flatMap, List.mem_flatMap] at hc
  obtain ⟨b, _, hb⟩ := hc
  exact escapeByte_no_delimiter b c hb

theorem QueryEscape_ne_nil (v : Str) (hv : v ≠ []) : QueryEscape v ≠ [] := by
  rw [QueryEscape_eq_flatMap]
  cases v with
  | nil => exact absurd rfl hv
  | cons b bs =>
    rw [List.flatMap_cons]
    intro h
    exact escapeByte_ne_nil b (List.append_eq_nil.mp h).1

/-! ## Lemmas on the parameters of a payload -/

theorem paramKeys_facts : ∀ k ∈ paramKeys,
    k ≠ [] ∧ ch '&' ∉ k ∧ ch '=' ∉ k ∧ ch ';' ∉ k ∧ QueryUnescape k = some k := by
  decide

theorem paramKeys_nodup : paramKeys.Nodup := by
  decide

theorem sortedFields_keys (n : Nexmo) : n.sortedFields.map Prod.fst = paramKeys := rfl

theorem present_keys_sublist (n : Nexmo) : (n.present.map Prod.fst).Sublist paramKeys := by
  rw [← sortedFields_keys n]
  exact (List.filter_sublist _).map _

theorem present_keys_nodup (n : Nexmo) : (n.present.map Prod.fst).Nodup :=
  (present_keys_sublist n).nodup paramKeys_nodup

theorem present_key_mem (n : Nexmo) (p : Str × Str) (hp : p ∈ n.present) : p.1 ∈ paramKeys :=
  (present_keys_sublist n).subset (List.mem_map_of_mem _ hp)

theorem present_value_ne_nil (n : Nexmo) (p : Str × Str) (hp : p ∈ n.present) : p.2 ≠ [] := by
  have h := (List.mem_filter.mp hp).2
  simpa using h

theorem getQuery_eq_intercalate (n : Nexmo) :
    n.getQuery = List.intercalate [ch '&']
      (n.present.map (fun p => p.1 ++ ch '=' :: QueryEscape p.2)) := by
  rw [getQuery_eq_canonicalQuery]
  unfold Nexmo.canonicalQuery
  rw [str_amp]
  congr 2
  funext p
  rw [str_eq, QueryEscape_eq_canonical]
  simp

theorem piece_no_amp (k v : Str) (hk : k ∈ paramKeys) :
    ch '&' ∉ k ++ ch '=' :: QueryEscape v := by
  have e : ch '&' ≠ ch '=' := by decide
  intro h
  rcases List.mem_append.mp h with h | h
  · exact (paramKeys_facts k hk).2.1 h
  · rcases List.mem_cons.mp h with h | h
    · exact e h
    · exact (QueryEscape_no_delimiter v _ h).1 rfl

theorem piece_no_semicolon (k v : Str) (hk : k ∈ paramKeys) :
    ch ';' ∉ k ++ ch '=' :: QueryEscape v := by
  have e : ch ';' ≠ ch '=' := by decide
  intro h
  rcases List.mem_append.mp h with h | h
  · exact (paramKeys_facts k hk).2.2.2.1 h
  · rcases List.mem_cons.mp h with h | h
    · exact e h
    · exact (QueryEscape_no_delimiter v _ h).2.2 rfl

theorem splitOn_getQuery (n : Nexmo) (h : n.present ≠ []) :
    splitOn (ch '&') n.getQuery = n.present.map (fun p => p.1 ++ ch '=' :: QueryEscape p.2) := by
  rw [getQuery_eq_intercalate]
  apply splitOn_intercalate
  · simpa using h
  · intro s hs
    obtain ⟨p, hp, rfl⟩ := List.mem_map.mp hs
    exact piece_no_amp p.1 p.2 (present_key_mem n p hp)

theorem getQuery_of_present_nil (n : Nexmo) (h : n.present = []) : n.getQuery = [] := by
  rw [getQuery_eq_intercalate, h]
  rfl

/-! ## Lemmas on decoding the query -/

theorem parseSegment_piece (st : Values × Bool) (k v : Str) (hk : k ∈ paramKeys) :
    parseSegment st (k ++ ch '=' :: QueryEscape v) = (st.1.Add k v, st.2) := by
  obtain ⟨hne, _, heq, _, hun⟩ := paramKeys_facts k hk
  have h1 : (k ++ ch '=' :: QueryEscape v).contains (ch ';') = false := by
    have := piece_no_semicolon k v hk
    simpa using this
  have h2 : k ++ ch '=' :: QueryEscape v ≠ [] := by simp
  unfold parseSegment
  rw [h1, cut_append_sep _ _ _ heq]
  simp only [Bool.false_eq_true, if_false, h2, hun, QueryUnescape_QueryEscape]

theorem Add_of_not_mem (m : Values) (k v : Str) (h : k ∉ m.map Prod.fst) :
    m.Add k v = m ++ [(k, [v])] := by
  unfold Values.Add
  have : m.any (fun p => p.1 == k) = false := by
    rw [Bool.eq_false_iff]
    intro hany
    obtain ⟨p, hp, hpk⟩ := List.any_eq_true.mp hany
    exact h (List.mem_map.mpr ⟨p, hp, by simpa using hpk⟩)
  rw [this]
  rfl

theorem foldl_parseSegment_pieces (pairs : List (Str × Str)) (m : Values) (e : Bool)
    (hk : ∀ p ∈ pairs, p.1 ∈ paramKeys)
    (hnd : (m.map Prod.fst ++ pairs.map Prod.fst).Nodup) :
    (pairs.map (fun p => p.1 ++ ch '=' :: QueryEscape p.2)).foldl parseSegment (m, e)
      = (m ++ pairs.map (fun p => (p.1, [p.2])), e) := by
  induction pairs generalizing m with
  | nil => simp
  | cons p ps ih =>
    have hp : p.1 ∉ m.map Prod.fst := by
      intro hmem
      have := List.nodup_append.mp hnd
      exact this.2.2 hmem (by simp)
    rw [List.map_cons, List.foldl_cons, parseSegment_piece _ _ _ (hk p (by simp)),
      Add_of_not_mem m p.1 p.2 hp]
    rw [ih (m ++ [(p.1, [p.2])]) (fun q hq => hk q (List.mem_cons_of_mem _ hq))
      (by simpa [List.append_assoc] using hnd)]
    simp

theorem ParseQuery_getQuery (n : Nexmo) :
    ParseQuery n.getQuery = (n.present.map (fun p => (p.1, [p.2])), false) := by
  unfold ParseQuery
  by_cases h : n.present = []
  · rw [getQuery_of_present_nil n h, h]
    rfl
  · rw [splitOn_getQuery n h,
      foldl_parseSegment_pieces n.present [] false (present_key_mem n)
        (by simpa using present_keys_nodup n)]
    simp

theorem queryKeys_getQuery (n : Nexmo) : queryKeys n.getQuery = n.present.map Prod.fst := by
  unfold queryKeys
  by_cases h : n.present = []
  · rw [getQuery_of_present_nil n h, h]
    rfl
  · rw [splitOn_getQuery n h, List.filter_eq_self.mpr, List.map_map]
    · apply List.map_congr_left
      intro p hp
      simp only [Function.comp]
      rw [cut_append_sep _ _ _ (paramKeys_facts p.1 (present_key_mem n p hp)).2.2.1]
    · intro s hs
      obtain ⟨p, _, rfl⟩ := List.mem_map.mp hs
      simp

theorem intercalate_ends (sep : Byte) (segs : List Str)
    (h : ∀ s ∈ segs, s ≠ [] ∧ sep ∉ s) :
    (segs ≠ [] → List.intercalate [sep] segs ≠ []) ∧
    (List.intercalate [sep] segs).head? ≠ some sep ∧
    (List.intercalate [sep] segs).getLast? ≠ some sep := by
  induction segs with
  | nil => simp [intercalate_nil]
  | cons s rest ih =>
    have hs := h s (by simp)
    cases rest with
    | nil =>
      rw [intercalate_singleton]
      refine ⟨fun _ => hs.1, ?_, ?_⟩
      · intro e
        exact hs.2 (List.mem_of_mem_head? e)
      · intro e
        exact hs.2 (List.mem_of_mem_getLast? e)
    | cons t rest =>
      have ih2 := ih (fun x hx => h x (List.mem_cons_of_mem _ hx))
      rw [intercalate_cons_cons]
      refine ⟨fun _ => by simp [hs.1], ?_, ?_⟩
      · rw [List.append_assoc, List.head?_append_of_ne_nil _ hs.1]
        intro e
        exact hs.2 (List.mem_of_mem_head? e)
      · rw [List.getLast?_append_of_ne_nil _ (ih2.1 (by simp))]
        exact ih2.2.2

theorem getQuery_ends (n : Nexmo) :
    n.getQuery.head? ≠ some (ch '&') ∧ n.getQuery.getLast? ≠ some (ch '&') := by
  rw [getQuery_eq_intercalate]
  refine (intercalate_ends (ch '&') _ ?_).2
  intro s hs
  obtain ⟨p, hp, rfl⟩ := List.mem_map.mp hs
  exact ⟨by simp, piece_no_amp p.1 p.2 (present_key_mem n p hp)⟩

/-! ## Lemmas on the call -/

theorem sendCopy_eq_payload (g : Nexmo) (to_ : Str) (message : Message) (callback : Str) :
    g.sendCopy to_ message callback = g.payload to_ message callback := rfl

theorem getResponse_newRequest_error {W : Type} (env : Env W) (n : Nexmo) (w : W) (e : Error)
    (h : env.newRequestErr (str "POST") env.NexmoEndpoint = some e) :
    n.getResponse env w = { resp := {}, err := some e, events := [], world := w } := by
  simp [Nexmo.getResponse, NewRequest, h]

theorem getResponse_roundTrip_error {W : Type} (env : Env W) (n : Nexmo) (w w1 : W) (e : Error)
    (h : env.newRequestErr (str "POST") env.NexmoEndpoint = none)
    (hdo : env.roundTrip (n.postRequest env) w = (.error e, w1)) :
    n.getResponse env w
      = { resp := {}, err := some e, events := [.request (n.postRequest env)], world := w1 } := by
  simp only [Nexmo.postRequest] at hdo
  simp [Nexmo.getResponse, NewRequest, h, Request.addHeader, hdo, Nexmo.postRequest]

theorem getResponse_read_error {W : Type} (env : Env W) (n : Nexmo) (w w1 : W) (e : Error)
    (r : Response)
    (h : env.newRequestErr (str "POST") env.NexmoEndpoint = none)
    (hdo : env.roundTrip (n.postRequest env) w = (.ok r, w1)) (hb : r.Body = .error e) :
    n.getResponse env w
      = { resp := {}, err := some e, events := [.request (n.postRequest env), .close],
          world := w1 } := by
  simp only [Nexmo.postRequest] at hdo
  simp [Nexmo.getResponse, NewRequest, h, Request.addHeader, hdo, hb, Nexmo.postRequest]

theorem getResponse_read_ok {W : Type} (env : Env W) (n : Nexmo) (w w1 : W) (b : Str)
    (r : Response)
    (h : env.newRequestErr (str "POST") env.NexmoEndpoint = none)
    (hdo : env.roundTrip (n.postRequest env) w = (.ok r, w1)) (hb : r.Body = .ok b) :
    n.getResponse env w
      = { resp := (Unmarshal env b {}).1, err := (Unmarshal env b {}).2,
          events := [.request (n.postRequest env), .unmarshal b, .close], world := w1 } := by
  simp only [Nexmo.postRequest] at hdo
  simp [Nexmo.getResponse, NewRequest, h, Request.addHeader, hdo, hb, Nexmo.postRequest]

theorem requestsOf_getResponse {W : Type} (env : Env W) (n : Nexmo) (w : W) :
    requestsOf (n.getResponse env w).events
      = if (env.newRequestErr (str "POST") env.NexmoEndpoint).isSome then []
        else [n.postRequest env] := by
  cases h : env.newRequestErr (str "POST") env.NexmoEndpoint with
  | some e => rw [getResponse_newRequest_error env n w e h]; rfl
  | none =>
    rcases hdo : env.roundTrip (n.postRequest env) w with ⟨a, w1⟩
    cases a with
    | error e => rw [getResponse_roundTrip_error env n w w1 e h hdo]; rfl
    | ok r =>
      cases hb : r.Body with
      | error e => rw [getResponse_read_error env n w w1 e r h hdo hb]; rfl
      | ok b => rw [getResponse_read_ok env n w w1 b r h hdo hb]; rfl

/-! ## Lemmas on the variables of a call -/

theorem Store.read_append_length (s : Store) (v : Nexmo) : Store.read (s ++ [v]) s.length = v := by
  simp [Store.read, List.getD_eq_getElem?_getD]

theorem Store.read_append_of_lt (s t : Store) (a : Nat) (ha : a < s.length) :
    Store.read (s ++ t) a = Store.read s a := by
  simp [Store.read, List.getD_eq_getElem?_getD, List.getElem?_append_left ha]

theorem Store.write_append_length (s : Store) (v v1 : Nexmo) :
    Store.write (s ++ [v]) s.length v1 = s ++ [v1] := by
  induction s with
  | nil => rfl
  | cons x xs ih =>
    simp only [Store.write] at ih
    simp [Store.write, ih]

theorem assignAt_alloc (s : Store) (g : Nexmo) (to_ : Str) (message : Message) (callback : Str) :
    Nexmo.assignAt s.length to_ message callback (s ++ [g])
      = s ++ [g.payload to_ message callback] := by
  simp only [Nexmo.assignAt, Store.read_append_length, Store.write_append_length, Nexmo.payload]

theorem getResponseAt_eq {W : Type} (env : Env W) (g : Nat) (s : Store) (w : W) :
    Nexmo.getResponseAt env g s w = ((s.read g).getResponse env w, s ++ [s.read g]) := by
  simp only [Nexmo.getResponseAt, Store.alloc, Store.read_append_length]

theorem sendAt_eq {W : Type} (env : Env W) (g : Nat) (to_ : Str) (message : Message)
    (callback : Str) (s : Store) (w : W) :
    Nexmo.sendAt env g to_ message callback s w
      = ((s.read g).send env to_ message callback w,
         s ++ [(s.read g).payload to_ message callback, (s.read g).payload to_ message callback]) := by
  have h : (s ++ [(s.read g).payload to_ message callback]).read s.length
      = (s.read g).payload to_ message callback := Store.read_append_length s _
  simp only [Nexmo.sendAt, Store.alloc, assignAt_alloc, getResponseAt_eq, h, Nexmo.send,
    sendCopy_eq_payload, List.append_assoc, List.singleton_append]

theorem sendAllAt_frame {W : Type} (env : Env W) (g : Nat) (calls : List Call) (s : Store)
    (w : W) (hg : g < s.length) :
    (Nexmo.sendAllAt env g calls s w).2.take s.length = s ∧
    (Nexmo.sendAllAt env g calls s w).1.map (fun o => requestsOf o.events)
      = calls.map (fun c =>
          if (env.newRequestErr (str "POST") env.NexmoEndpoint).isSome then []
          else [((s.read g).payload c.to_ c.message c.callback).postRequest env]) := by
  induction calls generalizing s w with
  | nil => exact ⟨List.take_length s, rfl⟩
  | cons c cs ih =>
    simp only [Nexmo.sendAllAt, sendAt_eq, List.map_cons]
    have hlen : g < (s ++ [(s.read g).payload c.to_ c.message c.callback,
        (s.read g).payload c.to_ c.message c.callback]).length := by
      rw [List.length_append]
      omega
    have key := ih (s ++ [(s.read g).payload c.to_ c.message c.callback,
      (s.read g).payload c.to_ c.message c.callback])
      ((s.read g).send env c.to_ c.message c.callback w).world hlen
    rw [Store.read_append_of_lt s _ g hg] at key
    refine ⟨?_, ?_⟩
    · have h2 := congrArg (List.take s.length) key.1
      rw [List.take_take, List.length_append, Nat.min_eq_left (Nat.le_add_right _ _),
        List.take_left] at h2
      exact h2
    · rw [key.2]
      congr 1
      exact requestsOf_getResponse env _ w

/-! ## Lemmas on the fields of the response -/

theorem findField_message_tag (foldEq : Str → Str → Bool) (f : MessageField) :
    findField foldEq MessageField.tag MessageField.all f.tag = some f := by
  cases f <;> rfl

theorem findField_response_tag (foldEq : Str → Str → Bool) (f : ResponseField) :
    findField foldEq ResponseField.tag ResponseField.all f.tag = some f := by
  cases f <;> rfl

theorem MessageField.tag_injective (f g : MessageField) (h : f.tag = g.tag) : f = g := by
  cases f <;> cases g <;> first | rfl | exact absurd h (by decide)

theorem NexmoResponseMessage.get_set (m : NexmoResponseMessage) (f g : MessageField) (s : Str) :
    (m.set f s).get g = if f = g then s else m.get g := by
  cases f <;> cases g <;> rfl

theorem NexmoResponseMessage.ext_get (a b : NexmoResponseMessage)
    (h : ∀ f, a.get f = b.get f) : a = b := by
  obtain ⟨a1, a2, a3, a4, a5, a6, a7⟩ := a
  obtain ⟨b1, b2, b3, b4, b5, b6, b7⟩ := b
  have h1 := h .To
  have h2 := h .MessageID
  have h3 := h .Status
  have h4 := h .ErrorText
  have h5 := h .RemainingBalance
  have h6 := h .MessagePrice
  have h7 := h .Network
  simp only [NexmoResponseMessage.get] at h1 h2 h3 h4 h5 h6 h7
  subst h1 h2 h3 h4 h5 h6 h7
  rfl

theorem lookup_of_not_mem (members : List (Str × JSON)) (k : Str)
    (h : k ∉ members.map Prod.fst) : members.lookup k = none := by
  induction members with
  | nil => rfl
  | cons kv ms ih =>
    obtain ⟨k1, v1⟩ := kv
    have hk : k ≠ k1 := fun e => h (by simp [e])
    have hms : k ∉ ms.map Prod.fst := fun e => h (by simp [e])
    have hb : (k == k1) = false := by simpa using hk
    simp [List.lookup, hb, ih hms]

theorem memberString_cons_self (ms : List (Str × JSON)) (k s dflt : Str) :
    memberString ((k, .string s) :: ms) k dflt = s := by
  simp [memberString, List.lookup]

theorem memberString_cons_ne (ms : List (Str × JSON)) (k k1 dflt : Str) (v : JSON)
    (h : k ≠ k1) : memberString ((k1, v) :: ms) k dflt = memberString ms k dflt := by
  have hb : (k == k1) = false := by simpa using h
  simp [memberString, List.lookup, hb]

theorem memberString_of_not_mem (ms : List (Str × JSON)) (k dflt : Str)
    (h : k ∉ ms.map Prod.fst) : memberString ms k dflt = dflt := by
  simp [memberString, lookup_of_not_mem ms k h]

theorem JSON.eq_string_of_isString (j : JSON) (h : j.isString = true) : ∃ s, j = .string s := by
  cases j <;> simp [JSON.isString] at h
  exact ⟨_, rfl⟩

/-! ## Lemmas on decoding a body of the documented shape -/

theorem decodeMessage_object_cons (foldEq : Str → Str → Bool) (f : MessageField) (s : Str)
    (ms : List (Str × JSON)) (cur : NexmoResponseMessage) (saved : Option Error) :
    decodeMessage foldEq (.object ((f.tag, .string s) :: ms)) cur saved
      = decodeMessage foldEq (.object ms) (cur.set f s) saved := by
  simp [decodeMessage, findField_message_tag, decodeString]

theorem decodeMessage_documented (foldEq : Str → Str → Bool) (ms : List (Str × JSON))
    (cur : NexmoResponseMessage) (saved : Option Error)
    (hnd : (ms.map Prod.fst).Nodup)
    (hall : ∀ kv ∈ ms, (∃ f : MessageField, kv.1 = f.tag) ∧ kv.2.isString = true) :
    (decodeMessage foldEq (.object ms) cur saved).2 = saved ∧
    ∀ f : MessageField,
      (decodeMessage foldEq (.object ms) cur saved).1.get f = memberString ms f.tag (cur.get f) := by
  induction ms generalizing cur with
  | nil => exact ⟨rfl, fun f => rfl⟩
  | cons kv ms ih =>
    obtain ⟨k, v⟩ := kv
    obtain ⟨⟨f0, hk⟩, hv⟩ := hall (k, v) (by simp)
    obtain ⟨s0, hs⟩ := JSON.eq_string_of_isString v hv
    simp only at hk hs
    subst hk hs
    rw [List.map_cons, List.nodup_cons] at hnd
    have ih2 := ih (cur.set f0 s0) hnd.2 (fun kv h => hall kv (List.mem_cons_of_mem _ h))
    rw [decodeMessage_object_cons]
    refine ⟨ih2.1, fun f => ?_⟩
    rw [ih2.2 f, NexmoResponseMessage.get_set]
    by_cases hf : f0 = f
    · subst hf
      rw [if_pos rfl, memberString_cons_self, memberString_of_not_mem _ _ _ hnd.1]
    · rw [if_neg hf, memberString_cons_ne]
      exact fun e => hf (MessageField.tag_injective _ _ e).symm

theorem decodeMessage_of_isMessageObject (foldEq : Str → Str → Bool) (j : JSON)
    (saved : Option Error) (h : isMessageObject j = true) :
    decodeMessage foldEq j {} saved = (expectedMessage j, saved) := by
  cases j with
  | object ms =>
    simp only [isMessageObject, Bool.and_eq_true, decide_eq_true_eq, List.all_eq_true] at h
    have hall : ∀ kv ∈ ms, (∃ f : MessageField, kv.1 = f.tag) ∧ kv.2.isString = true := by
      intro kv hkv
      have := h.2 kv hkv
      simp only [List.contains_iff_exists_mem_beq, List.mem_map, beq_iff_eq] at this
      obtain ⟨⟨t, ⟨f, _, hf⟩, ht⟩, hs⟩ := this
      exact ⟨⟨f, by rw [hf]; exact ht⟩, hs⟩
    have key := decodeMessage_documented foldEq ms {} saved h.1 hall
    refine Prod.ext ?_ key.1
    apply NexmoResponseMessage.ext_get
    intro f
    rw [key.2 f]
    cases f <;> rfl
  | null => simp [isMessageObject] at h
  | bool b => simp [isMessageObject] at h
  | number l => simp [isMessageObject] at h
  | string s => simp [isMessageObject] at h
  | array es => simp [isMessageObject] at h

theorem decodeElems_documented (foldEq : Str → Str → Bool) (elems : List JSON)
    (saved : Option Error) (h : elems.all isMessageObject = true) :
    decodeElems foldEq elems [] saved = (elems.map expectedMessage, saved) := by
  induction elems generalizing saved with
  | nil => rfl
  | cons j js ih =>
    simp only [List.all_cons, Bool.and_eq_true] at h
    simp only [decodeElems, List.headD_nil, List.tail_nil,
      decodeMessage_of_isMessageObject foldEq j saved h.1, ih saved h.2, List.map_cons]

theorem findField_message_count (foldEq : Str → Str → Bool) :
    findField foldEq ResponseField.tag ResponseField.all (str "message-count")
      = some .MessageCount := rfl

theorem findField_messages (foldEq : Str → Str → Bool) :
    findField foldEq ResponseField.tag ResponseField.all (str "messages") = some .Messages := rfl

theorem isResponseMember_cases (kv : Str × JSON) (h : isResponseMember kv = true) :
    (∃ s, kv = (str "message-count", .string s)) ∨
    (∃ elems, kv = (str "messages", .array elems) ∧ elems.all isMessageObject = true) := by
  obtain ⟨k, v⟩ := kv
  simp only [isResponseMember, Bool.or_eq_true, Bool.and_eq_true, beq_iff_eq] at h
  rcases h with ⟨hk, hv⟩ | ⟨hk, hv⟩
  · obtain ⟨s, hs⟩ := JSON.eq_string_of_isString v hv
    exact Or.inl ⟨s, by rw [hk, hs]⟩
  · cases v with
    | array elems => exact Or.inr ⟨elems, by rw [hk], hv⟩
    | null => simp at hv
    | bool b => simp at hv
    | number l => simp at hv
    | string s => simp at hv
    | object ms => simp at hv

theorem decodeMember_message_count (foldEq : Str → Str → Bool) (st : DecodeState) (s : Str) :
    decodeMember foldEq st (str "message-count", .string s)
      = { value := { st.value with MessageCount := s }, spare := st.spare, saved := st.saved } := by
  simp [decodeMember, findField_message_count, decodeString]

theorem decodeMember_messages (foldEq : Str → Str → Bool) (st : DecodeState) (elems : List JSON)
    (hm : st.value.Messages = []) (hs : st.spare = [])
    (hel : elems.all isMessageObject = true) :
    decodeMember foldEq st (str "messages", .array elems)
      = { value := { st.value with Messages := elems.map expectedMessage }, spare := [],
          saved := st.saved } := by
  cases elems with
  | nil => simp [decodeMember, findField_messages, decodeMessages]
  | cons j js =>
    simp [decodeMember, findField_messages, decodeMessages, hm, hs,
      decodeElems_documented foldEq (j :: js) st.saved hel]

theorem foldl_decodeMember_documented (foldEq : Str → Str → Bool) (ms : List (Str × JSON))
    (st : DecodeState)
    (hnd : (ms.map Prod.fst).Nodup) (hall : ∀ kv ∈ ms, isResponseMember kv = true)
    (hcur : (st.value.Messages = [] ∧ st.spare = []) ∨ str "messages" ∉ ms.map Prod.fst) :
    (ms.foldl (decodeMember foldEq) st).value
      = { MessageCount := memberString ms (str "message-count") st.value.MessageCount,
          Messages :=
            match ms.lookup (str "messages") with
            | some (.array elems) => elems.map expectedMessage
            | _ => st.value.Messages } ∧
    (ms.foldl (decodeMember foldEq) st).saved = st.saved := by
  have hne : str "messages" ≠ str "message-count" := by decide
  induction ms generalizing st with
  | nil => exact ⟨rfl, rfl⟩
  | cons kv ms ih =>
    rw [List.map_cons, List.nodup_cons] at hnd
    have hrest : ∀ kv ∈ ms, isResponseMember kv = true :=
      fun x hx => hall x (List.mem_cons_of_mem _ hx)
    rcases isResponseMember_cases kv (hall kv (by simp)) with ⟨s, rfl⟩ | ⟨elems, rfl, hel⟩
    · have hcur2 : (st.value.Messages = [] ∧ st.spare = []) ∨
          str "messages" ∉ ms.map Prod.fst := by
        rcases hcur with h | h
        · exact Or.inl h
        · exact Or.inr (fun e => h (by simp [e]))
      have key := ih ⟨{ st.value with MessageCount := s }, st.spare, st.saved⟩ hnd.2 hrest hcur2
      rw [List.foldl_cons, decodeMember_message_count]
      refine ⟨?_, key.2⟩
      rw [key.1, memberString_cons_self, memberString_of_not_mem _ _ _ hnd.1]
      have hb : (str "messages" == str "message-count") = false := by decide
      simp [List.lookup, hb]
    · have hm : st.value.Messages = [] ∧ st.spare = [] := by
        rcases hcur with h | h
        · exact h
        · exact absurd (by simp) h
      have key := ih ⟨{ st.value with Messages := elems.map expectedMessage }, [], st.saved⟩
        hnd.2 hrest (Or.inr hnd.1)
      rw [List.foldl_cons, decodeMember_messages foldEq st elems hm.1 hm.2 hel]
      refine ⟨?_, key.2⟩
      rw [key.1, memberString_cons_ne _ _ _ _ _ hne.symm, lookup_of_not_mem ms _ hnd.1]
      simp [List.lookup]

theorem decodeResponse_documented (foldEq : Str → Str → Bool) (j : JSON)
    (h : documentedShape j = true) :
    decodeResponse foldEq j {} = (expectedResponse j, none) := by
  cases j with
  | object ms =>
    simp only [documentedShape, Bool.and_eq_true, decide_eq_true_eq, List.all_eq_true] at h
    have key := foldl_decodeMember_documented foldEq ms ⟨{}, [], none⟩ h.1 h.2
      (Or.inl ⟨rfl, rfl⟩)
    simp only [decodeResponse, expectedResponse]
    rw [key.1, key.2]
    try rfl
  | null => simp [documentedShape] at h
  | bool b => simp [documentedShape] at h
  | number l => simp [documentedShape] at h
  | string s => simp [documentedShape] at h
  | array es => simp [documentedShape] at h

/-! ## Lemmas on the error of the decoder -/

theorem decodeString_isNone (j : JSON) (cur : Str) (saved : Option Error) :
    (decodeString j cur saved).2.isNone = (saved.isNone && fitsString true j) := by
  cases j <;> cases saved <;> rfl

theorem decodeMessage_isNone (foldEq : Str → Str → Bool) (j : JSON) (cur : NexmoResponseMessage)
    (saved : Option Error) :
    (decodeMessage foldEq j cur saved).2.isNone = (saved.isNone && fitsMessage true foldEq j) := by
  cases j with
  | object ms =>
    simp only [decodeMessage, fitsMessage]
    induction ms generalizing cur saved with
    | nil => simp
    | cons kv ms ih =>
      rw [List.foldl_cons, List.all_cons]
      cases hf : findField foldEq MessageField.tag MessageField.all kv.1 with
      | none => simp only [ih, Bool.true_and]
      | some f => simp only [ih, decodeString_isNone, Bool.and_assoc]
  | null => cases saved <;> rfl
  | bool b => cases saved <;> rfl
  | number l => cases saved <;> rfl
  | string s => cases saved <;> rfl
  | array es => cases saved <;> rfl

theorem decodeElems_isNone (foldEq : Str → Str → Bool) (elems : List JSON)
    (cur : List NexmoResponseMessage) (saved : Option Error) :
    (decodeElems foldEq elems cur saved).2.isNone
      = (saved.isNone && elems.all (fitsMessage true foldEq)) := by
  induction elems generalizing cur saved with
  | nil => simp [decodeElems]
  | cons j js ih =>
    simp only [decodeElems, ih, decodeMessage_isNone, List.all_cons, Bool.and_assoc]

theorem decodeMessages_isNone (foldEq : Str → Str → Bool) (j : JSON)
    (cur : MessageSlice) (saved : Option Error) :
    (decodeMessages foldEq j cur saved).2.isNone
      = (saved.isNone && fitsMessages true foldEq j) := by
  cases j with
  | array es =>
    cases es with
    | nil => simp [decodeMessages, fitsMessages]
    | cons j js => simp only [decodeMessages, fitsMessages, decodeElems_isNone, List.isEmpty_cons,
        Bool.false_eq_true, if_false]
  | null => cases saved <;> rfl
  | bool b => cases saved <;> rfl
  | number l => cases saved <;> rfl
  | string s => cases saved <;> rfl
  | object ms => cases saved <;> rfl

theorem foldl_decodeMember_isNone (foldEq : Str → Str → Bool) (ms : List (Str × JSON))
    (st : DecodeState) :
    (ms.foldl (decodeMember foldEq) st).saved.isNone
      = (st.saved.isNone && ms.all (fun kv =>
          match findField foldEq ResponseField.tag ResponseField.all kv.1 with
          | some .MessageCount => fitsString true kv.2
          | some .Messages => fitsMessages true foldEq kv.2
          | none => true)) := by
  induction ms generalizing st with
  | nil => simp
  | cons kv ms ih =>
    rw [List.foldl_cons, List.all_cons, ih]
    unfold decodeMember
    cases hf : findField foldEq ResponseField.tag ResponseField.all kv.1 with
    | none => simp only [Bool.true_and]
    | some f =>
      cases f with
      | MessageCount => simp only [decodeString_isNone, Bool.and_assoc]
      | Messages => simp only [decodeMessages_isNone, Bool.and_assoc]

theorem decodeResponse_isNone (foldEq : Str → Str → Bool) (j : JSON) (cur : NexmoResponse) :
    (decodeResponse foldEq j cur).2.isNone = fitsResponse true foldEq j := by
  cases j with
  | object ms =>
    simp only [decodeResponse, fitsResponse, foldl_decodeMember_isNone, Option.isNone_none,
      Bool.true_and]
    try rfl
  | null => rfl
  | bool b => rfl
  | number l => rfl
  | string s => rfl
  | array es => rfl

/-! ## The query -/

theorem mem_sortedFields_iff (n : Nexmo) (p : Str × Str) :
    p ∈ n.sortedFields ↔ p ∈ n.fields := by
  simp only [Nexmo.sortedFields, Nexmo.fields, List.mem_cons, List.mem_singleton,
    List.not_mem_nil, or_false]
  tauto

theorem mem_present_keys_iff (n : Nexmo) (k : Str) :
    k ∈ n.present.map Prod.fst ↔ ∃ p ∈ n.fields, p.1 = k ∧ p.2 ≠ [] := by
  simp only [List.mem_map, Nexmo.present, List.mem_filter, decide_eq_true_eq]
  constructor
  · rintro ⟨p, ⟨hp, hne⟩, rfl⟩
    exact ⟨p, (mem_sortedFields_iff n p).mp hp, rfl, hne⟩
  · rintro ⟨p, hp, rfl, hne⟩
    exact ⟨p, ⟨(mem_sortedFields_iff n p).mpr hp, hne⟩, rfl⟩

theorem count_eq_one_of_nodup (l : List Str) (k : Str) (hnd : l.Nodup) (hk : k ∈ l) :
    l.count k = 1 := by
  induction l with
  | nil => simp at hk
  | cons a l ih =>
    rw [List.nodup_cons] at hnd
    rw [List.count_cons]
    rcases List.mem_cons.mp hk with rfl | h
    · rw [List.count_eq_zero_of_not_mem hnd.1]
      simp
    · have hne : a ≠ k := fun e => hnd.1 (e ▸ h)
      rw [ih hnd.2 h]
      simp [hne]

/-- C1: for every payload and every key, the key is written in the query of
`getQuery` exactly once when it is the key of a non-empty field under the
mapping APIKey, APISecret, From, to, text, callback to `api_key`, `api_secret`,
`from`, `to`, `text`, `callback`, and it is not written at all otherwise. -/
theorem getQuery_keys (n : Nexmo) (k : Str) :
    (queryKeys n.getQuery).count k = if ∃ p ∈ n.fields, p.1 = k ∧ p.2 ≠ [] then 1 else 0 := by
  rw [queryKeys_getQuery]
  split
  · next h => exact count_eq_one_of_nodup _ k (present_keys_nodup n) ((mem_present_keys_iff n k).mpr h)
  · next h => exact List.count_eq_zero_of_not_mem (fun e => h ((mem_present_keys_iff n k).mp e))

/-- C2: for every payload, form-decoding the query of `getQuery` meets no error
and yields the map whose entries are the keys of the non-empty fields, each
with the one value that is the field itself, byte for byte. -/
theorem getQuery_roundtrip (n : Nexmo) :
    ParseQuery n.getQuery
      = ((n.sortedFields.filter (fun p => p.2 ≠ [])).map (fun p => (p.1, [p.2])), false) :=
  ParseQuery_getQuery n

/-- C8: when all six fields of a payload are empty, `getQuery` returns the
empty string. -/
theorem getQuery_all_empty :
    Nexmo.getQuery
      { APIKey := [], APISecret := [], From := [], to_ := [], text := [], callback := [] } = [] := by
  decide

/-- C10: for every payload, the query of `getQuery` is the canonical form, the
pairs `key=escape(value)` of the non-empty fields in ascending key order joined
by `&`, and it neither starts nor ends with `&`. -/
theorem getQuery_canonical (n : Nexmo) :
    n.getQuery = n.canonicalQuery ∧
    n.getQuery.head? ≠ some (ch '&') ∧ n.getQuery.getLast? ≠ some (ch '&') :=
  ⟨getQuery_eq_canonicalQuery n, getQuery_ends n⟩

/-! ## The call -/

/-- C3, counterexample: with the endpoint set to `:`, which is no URL, `send`
fails in `http.NewRequest` and hands no request to the client. -/
theorem send_unparsable_endpoint :
    requestsOf (sampleGateway.send unparsableEnv (str "15551234567") ⟨str "hello"⟩ [] 0).events = []
    ∧ (sampleGateway.send unparsableEnv (str "15551234567") ⟨str "hello"⟩ [] 0).err
        = some (.external "missing protocol scheme") := by
  decide

/-- C3, amended: `send` calls the HTTP client not at all when
`http.NewRequest` fails on the endpoint, and otherwise makes exactly one call
of `client.Do`, with a request that is a POST to `NexmoEndpoint` with the
header `Content-Type: application/x-www-form-urlencoded` and as body the query
of the gateway's credentials and sender with the recipient, text and callback
of the call; which further requests the client sends by itself when it follows
a redirect is not said.  For the gateway `k1`, `s1`, `MyApp`, recipient
`15551234567`, text `hello` and no callback that body decodes to the five
parameters and no `callback`. -/
theorem send_request {W : Type} (env : Env W) (g : Nexmo) (to_ : Str) (message : Message)
    (callback : Str) (w : W) :
    requestsOf (g.send env to_ message callback w).events
      = (if (env.newRequestErr (str "POST") env.NexmoEndpoint).isSome then []
         else [{ Method := str "POST", URL := env.NexmoEndpoint,
                 Header := [(str "Content-Type", str "application/x-www-form-urlencoded")],
                 Body := Nexmo.getQuery
                   { APIKey := g.APIKey, APISecret := g.APISecret, From := g.From,
                     to_ := to_, text := message.String, callback := callback } }])
    ∧ ParseQuery (Nexmo.getQuery
        { APIKey := str "k1", APISecret := str "s1", From := str "MyApp",
          to_ := str "15551234567", text := str "hello", callback := [] })
      = ([(str "api_key", [str "k1"]), (str "api_secret", [str "s1"]), (str "from", [str "MyApp"]),
          (str "text", [str "hello"]), (str "to", [str "15551234567"])], false) :=
  ⟨requestsOf_getResponse env _ w, by decide⟩

/-- C4: when constructing the request, performing the network call or reading
the response body fails with an error, `send` returns that error with the
zero-value response and hands nothing to the JSON decoder. -/
theorem send_transport_failure {W : Type} (env : Env W) (g : Nexmo) (to_ : Str)
    (message : Message) (callback : Str) (w : W) (e : Error)
    (h : env.newRequestErr (str "POST") env.NexmoEndpoint = some e ∨
      (env.newRequestErr (str "POST") env.NexmoEndpoint = none ∧
        ((env.roundTrip ((g.payload to_ message callback).postRequest env) w).1 = .error e ∨
         ∃ r, (env.roundTrip ((g.payload to_ message callback).postRequest env) w).1 = .ok r ∧
           r.Body = .error e))) :
    (g.send env to_ message callback w).err = some e ∧
    (g.send env to_ message callback w).resp = {} ∧
    decodedOf (g.send env to_ message callback w).events = [] := by
  unfold Nexmo.send
  rw [sendCopy_eq_payload]
  rcases h with h | ⟨h, hdo | ⟨r, hdo, hb⟩⟩
  · rw [getResponse_newRequest_error env _ w e h]
    exact ⟨rfl, rfl, rfl⟩
  · rw [getResponse_roundTrip_error env _ w _ e h (Prod.ext hdo rfl)]
    exact ⟨rfl, rfl, rfl⟩
  · rw [getResponse_read_error env _ w _ e r h (Prod.ext hdo rfl) hb]
    exact ⟨rfl, rfl, rfl⟩

/-- C4, witness: a request that cannot be constructed, a refused connection and
a body that breaks off. -/
theorem send_transport_failure_witness :
    ((sampleGateway.send unparsableEnv (str "1") ⟨str "hi"⟩ [] 0).err
        = some (.external "missing protocol scheme") ∧
      (sampleGateway.send unparsableEnv (str "1") ⟨str "hi"⟩ [] 0).resp = {} ∧
      decodedOf (sampleGateway.send unparsableEnv (str "1") ⟨str "hi"⟩ [] 0).events = []) ∧
    ((sampleGateway.send (fixedEnv none (.error (.external "connection refused")) sampleScan)
        (str "1") ⟨str "hi"⟩ [] 0).err = some (.external "connection refused") ∧
      (sampleGateway.send (fixedEnv none (.error (.external "connection refused")) sampleScan)
        (str "1") ⟨str "hi"⟩ [] 0).resp = {} ∧
      decodedOf (sampleGateway.send (fixedEnv none (.error (.external "connection refused"))
        sampleScan) (str "1") ⟨str "hi"⟩ [] 0).events = []) ∧
    ((sampleGateway.send
        (fixedEnv none (.ok ⟨200, .error (.external "unexpected EOF")⟩) sampleScan)
        (str "1") ⟨str "hi"⟩ [] 0).err = some (.external "unexpected EOF") ∧
      (sampleGateway.send
        (fixedEnv none (.ok ⟨200, .error (.external "unexpected EOF")⟩) sampleScan)
        (str "1") ⟨str "hi"⟩ [] 0).resp = {} ∧
      decodedOf (sampleGateway.send
        (fixedEnv none (.ok ⟨200, .error (.external "unexpected EOF")⟩) sampleScan)
        (str "1") ⟨str "hi"⟩ [] 0).events = []) :=
  ⟨send_transport_failure unparsableEnv sampleGateway (str "1") ⟨str "hi"⟩ [] 0 _ (Or.inl rfl),
   send_transport_failure (fixedEnv none (.error (.external "connection refused")) sampleScan)
     sampleGateway (str "1") ⟨str "hi"⟩ [] 0 _ (Or.inr ⟨rfl, Or.inl rfl⟩),
   send_transport_failure
     (fixedEnv none (.ok ⟨200, .error (.external "unexpected EOF")⟩) sampleScan)
     sampleGateway (str "1") ⟨str "hi"⟩ [] 0 _ (Or.inr ⟨rfl, Or.inr ⟨_, rfl, rfl⟩⟩)⟩

/-- C5: when the exchange and the reading of the body succeed and the body is
JSON of the documented shape, `send` returns no error and the response that the
JSON stands for, whatever the status of each message. -/
theorem send_decodes_response {W : Type} (env : Env W) (g : Nexmo) (to_ : Str)
    (message : Message) (callback : Str) (w w1 : W) (r : Response) (body : Str) (j : JSON)
    (hreq : env.newRequestErr (str "POST") env.NexmoEndpoint = none)
    (hdo : env.roundTrip ((g.payload to_ message callback).postRequest env) w = (.ok r, w1))
    (hbody : r.Body = .ok body) (hscan : env.scan body = .ok j)
    (hshape : documentedShape j = true) :
    (g.send env to_ message callback w).err = none ∧
    (g.send env to_ message callback w).resp = expectedResponse j := by
  unfold Nexmo.send
  rw [sendCopy_eq_payload, getResponse_read_ok env _ w w1 body r hreq hdo hbody]
  simp only [Unmarshal, hscan, decodeResponse_documented env.foldEq j hshape, and_self]

/-- C5, witness: a body with one message of status `4` comes back as data, with
no error. -/
theorem send_decodes_response_witness :
    ((sampleGateway.send (fixedEnv none (.ok ⟨200, .ok sampleBody⟩) sampleScan)
        (str "15551234567") ⟨str "hello"⟩ [] 0).err = none ∧
     (sampleGateway.send (fixedEnv none (.ok ⟨200, .ok sampleBody⟩) sampleScan)
        (str "15551234567") ⟨str "hello"⟩ [] 0).resp = expectedResponse sampleValue) ∧
    expectedResponse sampleValue
      = { MessageCount := str "1",
          Messages := [{ To := str "15551234567", Status := str "4",
                         ErrorText := str "Invalid credentials" }] } :=
  ⟨send_decodes_response (fixedEnv none (.ok ⟨200, .ok sampleBody⟩) sampleScan) sampleGateway
     (str "15551234567") ⟨str "hello"⟩ [] 0 1 ⟨200, .ok sampleBody⟩ sampleBody sampleValue
     rfl rfl rfl rfl (by decide), by decide⟩

theorem Store.read_of_take (t s : Store) (g : Nat) (h : t.take s.length = s)
    (hg : g < s.length) : t.read g = s.read g := by
  have e : t = s ++ t.drop s.length := by
    conv_lhs => rw [← List.take_append_drop s.length t, h]
  rw [e]
  exact Store.read_append_of_lt s _ g hg

/-- C6: a call of `send` on a gateway variable leaves that variable, and every
variable there was before the call, with the value it had, and returns what
`send` returns on that value; what `send` returns is the same for any two
gateway values with the same APIKey, APISecret and From, whatever their `to`,
`text` and `callback`; and in a sequence of calls on one gateway variable the
variable keeps its value and the requests each call hands to the client are
those of its own recipient, text and callback with the credentials and sender
of the gateway. -/
theorem send_isolation {W : Type} (env : Env W) (s : Store) (g : Nat) (hg : g < s.length) :
    (∀ (to_ : Str) (message : Message) (callback : Str) (w : W),
      (Nexmo.sendAt env g to_ message callback s w).2.take s.length = s ∧
      (Nexmo.sendAt env g to_ message callback s w).2.read g = s.read g ∧
      (Nexmo.sendAt env g to_ message callback s w).1 = (s.read g).send env to_ message callback w) ∧
    (∀ (g1 g2 : Nexmo) (to_ : Str) (message : Message) (callback : Str) (w : W),
      g1.APIKey = g2.APIKey → g1.APISecret = g2.APISecret → g1.From = g2.From →
      g1.send env to_ message callback w = g2.send env to_ message callback w) ∧
    (∀ (calls : List Call) (w : W),
      (Nexmo.sendAllAt env g calls s w).2.take s.length = s ∧
      (Nexmo.sendAllAt env g calls s w).2.read g = s.read g ∧
      (Nexmo.sendAllAt env g calls s w).1.map (fun o => requestsOf o.events)
        = calls.map (fun c =>
            if (env.newRequestErr (str "POST") env.NexmoEndpoint).isSome then []
            else [{ Method := str "POST", URL := env.NexmoEndpoint,
                    Header := [(str "Content-Type", str "application/x-www-form-urlencoded")],
                    Body := Nexmo.getQuery
                      { APIKey := (s.read g).APIKey, APISecret := (s.read g).APISecret,
                        From := (s.read g).From, to_ := c.to_, text := c.message.String,
                        callback := c.callback } }])) := by
  refine ⟨fun to_ message callback w => ?_, fun g1 g2 to_ message callback w h1 h2 h3 => ?_,
    fun calls w => ?_⟩
  · have htake : (Nexmo.sendAt env g to_ message callback s w).2.take s.length = s := by
      rw [sendAt_eq]
      exact List.take_left s _
    exact ⟨htake, Store.read_of_take _ s g htake hg, by rw [sendAt_eq]⟩
  · have e : g1.sendCopy to_ message callback = g2.sendCopy to_ message callback := by
      simp only [sendCopy_eq_payload, Nexmo.payload, h1, h2, h3]
    unfold Nexmo.send
    rw [e]
  · have key := sendAllAt_frame env g calls s w hg
    exact ⟨key.1, Store.read_of_take _ s g key.1 hg, key.2⟩

/-- C6, witness: after two calls with different recipients, texts and callbacks
the gateway variable holds the gateway of the example as before. -/
theorem send_isolation_witness :
    0 < [sampleGateway].length ∧
    (Nexmo.sendAllAt (fixedEnv none (.ok ⟨200, .ok sampleBody⟩) sampleScan) 0
      [⟨str "15551234567", ⟨str "hello"⟩, []⟩, ⟨str "15557654321", ⟨str "bye"⟩, str "http://cb"⟩]
      [sampleGateway] 0).2.read 0 = Store.read [sampleGateway] 0 ∧
    Store.read [sampleGateway] 0 = sampleGateway :=
  ⟨by decide,
   ((send_isolation (fixedEnv none (.ok ⟨200, .ok sampleBody⟩) sampleScan) [sampleGateway] 0
      (by decide)).2.2
      [⟨str "15551234567", ⟨str "hello"⟩, []⟩, ⟨str "15557654321", ⟨str "bye"⟩, str "http://cb"⟩]
      0).2.1,
   rfl⟩

theorem decodeResponse_repeated_messages :
    (decodeResponse (fun a b => a == b) repeatedValue {}).1.Messages
      = [{ To := str "a", Status := str "2" }, { To := str "b", Status := str "3" }] := by
  decide

/-- C7, counterexample: the body `null` is JSON that is no object, so it does
not fit the response schema, and `send` returns no error. -/
theorem send_null_body :
    fitsResponse false (fun a b => a == b) .null = false ∧
    (sampleGateway.send (fixedEnv none (.ok ⟨200, .ok (str "null")⟩) sampleScan)
      (str "15551234567") ⟨str "hello"⟩ [] 0).err = none ∧
    (sampleGateway.send (fixedEnv none (.ok ⟨200, .ok (str "null")⟩) sampleScan)
      (str "15551234567") ⟨str "hello"⟩ [] 0).resp = {} := by
  decide

/-- C7, amended: when the exchange and the reading of the body succeed, `send`
returns what the decoder returns; for a body that is not JSON that is the
error of the scanner with the zero-value response, and for a body that is JSON
the error is non-nil exactly when the JSON does not fit the response schema
with `null` taken for an absent value. -/
theorem send_decode_failure {W : Type} (env : Env W) (g : Nexmo) (to_ : Str)
    (message : Message) (callback : Str) (w w1 : W) (r : Response) (body : Str)
    (hreq : env.newRequestErr (str "POST") env.NexmoEndpoint = none)
    (hdo : env.roundTrip ((g.payload to_ message callback).postRequest env) w = (.ok r, w1))
    (hbody : r.Body = .ok body) :
    (∀ e, env.scan body = .error e →
      (g.send env to_ message callback w).err = some e ∧
      (g.send env to_ message callback w).resp = {}) ∧
    (∀ j, env.scan body = .ok j →
      ((g.send env to_ message callback w).err ≠ none ↔ fitsResponse true env.foldEq j = false) ∧
      (g.send env to_ message callback w).resp = (decodeResponse env.foldEq j {}).1) := by
  unfold Nexmo.send
  rw [sendCopy_eq_payload, getResponse_read_ok env _ w w1 body r hreq hdo hbody]
  refine ⟨fun e he => ?_, fun j hj => ?_⟩
  · simp only [Unmarshal, he, and_self]
  · simp only [Unmarshal, hj, and_true]
    rw [← decodeResponse_isNone env.foldEq j {}]
    cases (decodeResponse env.foldEq j {}).2 <;> simp

/-- C7, witness: a body that is not JSON and a body whose `message-count` is a
number. -/
theorem send_decode_failure_witness :
    (sampleGateway.send (fixedEnv none (.ok ⟨200, .ok (str "<html>")⟩) sampleScan)
        (str "15551234567") ⟨str "hello"⟩ [] 0).err = some (.external "invalid character") ∧
    (sampleGateway.send (fixedEnv none (.ok ⟨200, .ok (str "<html>")⟩) sampleScan)
        (str "15551234567") ⟨str "hello"⟩ [] 0).resp = {} ∧
    (sampleGateway.send (fixedEnv none (.ok ⟨200, .ok mistypedBody⟩) sampleScan)
        (str "15551234567") ⟨str "hello"⟩ [] 0).err ≠ none :=
  ⟨((send_decode_failure (fixedEnv none (.ok ⟨200, .ok (str "<html>")⟩) sampleScan)
      sampleGateway (str "15551234567") ⟨str "hello"⟩ [] 0 1 ⟨200, .ok (str "<html>")⟩
      (str "<html>") rfl rfl rfl).1 _ rfl).1,
   ((send_decode_failure (fixedEnv none (.ok ⟨200, .ok (str "<html>")⟩) sampleScan)
      sampleGateway (str "15551234567") ⟨str "hello"⟩ [] 0 1 ⟨200, .ok (str "<html>")⟩
      (str "<html>") rfl rfl rfl).1 _ rfl).2,
   ((send_decode_failure (fixedEnv none (.ok ⟨200, .ok mistypedBody⟩) sampleScan)
      sampleGateway (str "15551234567") ⟨str "hello"⟩ [] 0 1 ⟨200, .ok mistypedBody⟩
      mistypedBody rfl rfl rfl).2 _ rfl).1.mpr rfl⟩

/-! ## The dispatch -/

/-- C9: for every gateway and all arguments, `Send` is the gateway's `send` on
those arguments: the same result, error and effect on the state; on a gateway
that records its calls, one call with the three arguments is recorded. -/
theorem Send_forwards {S R : Type} (g : Gateway S R) (to_ : Str) (message : Message)
    (callback : Str) (s : S) (calls : List Call) :
    Send g to_ message callback s = g.send to_ message callback s ∧
    Send g.recording to_ message callback (s, calls)
      = ((g.send to_ message callback s).1,
         ((g.send to_ message callback s).2, calls ++ [⟨to_, message, callback⟩])) :=
  ⟨rfl, rfl⟩

end Sms
